import Mathlib

/-!
Verification development for the equity-cloud-platform backend.

The Python services under src/api are shallowly embedded below:

- pure string manipulation (strip, upper, lexicographic comparison) is
  re-implemented over lists of characters so that every definition is
  executable by the kernel;
- network calls are modelled by oracle functions passed as parameters
  (an oracle maps a request to the outcome the provider would produce);
- the process-wide dict caches are modelled by association lists threaded
  through the functions;
- wall-clock instants are rationals, TTLs are integers (as in the source,
  where time.time() is a float and TTL parameters are ints);
- Python exceptions become explicit error values in Except results.

Observable side effects that the specification talks about (retry sleeps,
number of network attempts, whether a response was served from the
aggregation cache) are recorded in the returned structures.
-/

/-! ## Python string primitives, modelled over lists of characters -/

/-- Lexicographic (code-point) comparison of character lists, the order
Python uses when comparing strings with the comparison operators. -/
def charsLe : List Char → List Char → Bool
  | [], _ => true
  | _ :: _, [] => false
  | a :: as, b :: bs =>
    if a < b then true else if b < a then false else charsLe as bs

/-- Python string less-or-equal. -/
def pyStrLe (a b : String) : Bool := charsLe a.data b.data

/-- Python string strictly-less: the negation of the reverse less-or-equal,
which coincides with lexicographic strict comparison for total orders. -/
def pyStrLt (a b : String) : Bool := !(charsLe b.data a.data)

/-- Python str.upper restricted to ASCII letters, which is exact for the
ticker symbols and country codes this service manipulates. -/
def pyUpper (s : String) : String := ⟨s.data.map Char.toUpper⟩

/-- Whitespace characters stripped by Python str.strip. -/
def pyIsSpace (c : Char) : Bool :=
  c = ' ' || c = '\t' || c = '\n' || c = '\r' || c = '\x0b' || c = '\x0c'

/-- Python str.strip: remove leading and trailing whitespace. -/
def pyStrip (s : String) : String :=
  ⟨((s.data.dropWhile pyIsSpace).reverse.dropWhile pyIsSpace).reverse⟩

/-! ## FinnhubService (src/api/services/finnhub_service.py) -/

/-- Python dict assignment d[k] = v on a dict represented as an association
list with unique keys: overwrite in place when the key exists, append
otherwise. -/
def set_param (params : List (String × String)) (k v : String) :
    List (String × String) :=
  if (params.lookup k).isSome then
    params.map (fun kv => if kv.1 = k then (k, v) else kv)
  else
    params ++ [(k, v)]

/-- FinnhubService._cache_key (finnhub_service.py lines 34-39): drop the
token parameter, sort the remaining keys, and join them into a
deterministic fingerprint string. -/
def cache_key (path : String) (params : List (String × String)) : String :=
  let safe := params.filter (fun kv => kv.1 ≠ "token")
  let sortedKeys := (safe.map Prod.fst).insertionSort (fun a b => pyStrLe a b = true)
  let parts := sortedKeys.map (fun k => k ++ "=" ++ ((safe.lookup k).getD ""))
  path ++ "?" ++ String.intercalate "&" parts

/-- FinnhubService._cache_get (lines 41-51): an entry whose expiry has
passed is treated as absent and popped from the dict; a live entry is
returned unchanged. The pair holds the possibly evicted cache. -/
def cache_get {α : Type} (cache : List (String × ℚ × α)) (key : String)
    (now : ℚ) : Option α × List (String × ℚ × α) :=
  match cache.lookup key with
  | none => (none, cache)
  | some (expiresAt, value) =>
    if expiresAt ≤ now then (none, cache.filter (fun kv => kv.1 ≠ key))
    else (some value, cache)

/-- FinnhubService._cache_set (lines 53-58): a non-positive TTL stores
nothing; otherwise the entry is written with expiry now + ttl. -/
def cache_set {α : Type} (cache : List (String × ℚ × α)) (key : String)
    (value : α) (ttlSeconds : Int) (now : ℚ) : List (String × ℚ × α) :=
  if ttlSeconds ≤ 0 then cache
  else (key, now + ttlSeconds, value) :: cache.filter (fun kv => kv.1 ≠ key)

/-- Outcome of one network attempt inside FinnhubService._get_json: an HTTP
response with a status and (for 2xx) a JSON payload, or one of the
requests exception classes. -/
inductive AttemptOutcome (α : Type) where
  | http (status : Nat) (payload : α)
  | timeoutExc
  | connectionExc
  | otherRequestExc
deriving DecidableEq, Repr

/-- Failures _get_json can surface to its caller. -/
inductive UpstreamError where
  | httpStatus (status : Nat)
  | timeoutExc
  | connectionExc
  | requestExc
  | notConfigured
  | requestFailed
deriving DecidableEq, Repr

/-- How the try/except structure of _get_json (lines 82-114) treats one
attempt. A 429 or 5xx response is raised as HTTPError by the code itself;
any other status at or above 400 raises HTTPError from raise_for_status.
Both land in the same except clause (Timeout, ConnectionError, HTTPError),
so both are classified transient; only the remaining RequestException
kinds reach the non-retryable clause. -/
inductive AttemptClass (α : Type) where
  | success (payload : α)
  | transient (e : UpstreamError)
  | fatal (e : UpstreamError)
deriving DecidableEq, Repr

/-- Classify one attempt outcome exactly as the except clauses of
_get_json do. -/
def classify_attempt {α : Type} : AttemptOutcome α → AttemptClass α
  | .http s p =>
    if s = 429 ∨ (500 ≤ s ∧ s ≤ 599) then .transient (.httpStatus s)
    else if 400 ≤ s ∧ s ≤ 599 then .transient (.httpStatus s)
    else .success p
  | .timeoutExc => .transient .timeoutExc
  | .connectionExc => .transient .connectionExc
  | .otherRequestExc => .fatal .requestExc

/-- Backoff duration before the next retry (lines 105-107):
min(5.0, 0.5 * 2 ** attempt + jitter) with jitter drawn from [0, 0.25]. -/
def sleep_seconds (attempt : Nat) (jitter : ℚ) : ℚ :=
  min 5 ((1 / 2) * 2 ^ attempt + jitter)

/-- Result of running the retry loop of _get_json: the value or error, the
list of sleeps performed between attempts, and the number of network
calls issued. -/
structure RetryTrace (α : Type) where
  result : Except UpstreamError α
  sleeps : List ℚ
  networkCalls : Nat

/-- The retry loop of _get_json (lines 82-119). The arguments after
maxRetries are the current attempt index, the remaining loop iterations,
the last exception seen, and the sleeps and network calls so far. The
jitter oracle gives the value random.uniform(0, 0.25) would return on a
given attempt. -/
def get_json_loop {α : Type} (outcome : Nat → AttemptOutcome α)
    (jitter : Nat → ℚ) (maxRetries : Nat) :
    Nat → Nat → Option UpstreamError → List ℚ → Nat → RetryTrace α
  | _, 0, lastExc, sleeps, calls =>
    ⟨.error (lastExc.getD .requestFailed), sleeps, calls⟩
  | attempt, remaining + 1, _lastExc, sleeps, calls =>
    match classify_attempt (outcome attempt) with
    | .success p => ⟨.ok p, sleeps, calls + 1⟩
    | .transient e =>
      if maxRetries - 1 ≤ attempt then ⟨.error e, sleeps, calls + 1⟩
      else
        get_json_loop outcome jitter maxRetries (attempt + 1) remaining (some e)
          (sleeps ++ [sleep_seconds attempt (jitter attempt)]) (calls + 1)
    | .fatal e => ⟨.error e, sleeps, calls + 1⟩

/-- FinnhubService._get_json (lines 60-119): require the key, add the token
parameter, consult the TTL cache, and otherwise run the retry loop,
caching a successful payload with the caller-supplied TTL. The returned
pair carries the trace and the cache after the call. -/
def get_json {α : Type} (apiKey : String) (maxRetries : Nat)
    (cache : List (String × ℚ × α)) (now : ℚ) (path : String)
    (params : List (String × String)) (cacheTtlSeconds : Int)
    (outcome : Nat → AttemptOutcome α) (jitter : Nat → ℚ) :
    RetryTrace α × List (String × ℚ × α) :=
  if apiKey = "" then (⟨.error .notConfigured, [], 0⟩, cache)
  else
    let fullParams := set_param params "token" apiKey
    let key := cache_key path fullParams
    match cache_get cache key now with
    | (some v, cacheAfter) => (⟨.ok v, [], 0⟩, cacheAfter)
    | (none, cacheAfter) =>
      let trace := get_json_loop outcome jitter maxRetries 0 (max maxRetries 1) none [] 0
      match trace.result with
      | .ok data => (trace, cache_set cacheAfter key data cacheTtlSeconds now)
      | .error _ => (trace, cacheAfter)

/-! ## NewsService (src/api/services/news_service.py) -/

/-- A news article as the service shapes it: the six fields copied from the
provider payload plus the symbol tag that get_watchlist_news adds (absent
on articles produced by get_company_news). -/
structure Article where
  headline : String
  summary : String
  url : String
  source : String
  datetime : Int
  image : String
  symbol : Option String
deriving DecidableEq, Repr

/-- Outcome of the company-news HTTP request inside get_company_news: the
parsed JSON array, or one of the exception classes the code catches. -/
inductive NewsFetchOutcome where
  | ok (items : List Article)
  | httpStatus (status : Nat)
  | timeoutExc
  | otherExc
deriving Repr

/-- Failures get_company_news raises (news_service.py lines 10-19 and
115-129): ValueError for an invalid symbol, and the three dedicated
runtime errors. -/
inductive NewsError where
  | invalidSymbol
  | notConfigured
  | rateLimited
  | unavailable
deriving DecidableEq, Repr

/-- Keys of the module-level _news_cache dict, which holds both the
per-symbol entries of get_company_news, keyed (symbol, days), and the
aggregation entries of get_watchlist_news, keyed by a six-tuple. -/
inductive NewsCacheKey where
  | companyNews (symbol : String) (days : Int)
  | aggregation (symbols : List String) (days perSymbolLimit totalLimit : Int)
      (symbolFilter : String) (cacheVersion : String)
deriving DecidableEq, Repr

/-- The _news_cache dict: key to (expiry instant, cached articles). -/
abbrev NewsCache : Type := List (NewsCacheKey × ℚ × List Article)

/-- Python dict update _news_cache[k] = (expiry, v). -/
def news_cache_insert (cache : NewsCache) (k : NewsCacheKey) (expiry : ℚ)
    (v : List Article) : NewsCache :=
  (k, expiry, v) :: cache.filter (fun kv => kv.1 ≠ k)

/-- Normalization applied to a raw symbol: (raw or "").strip().upper(). -/
def norm_sym (raw : String) : String := pyUpper (pyStrip raw)

/-- Python list.sort(key=datetime, reverse=True): descending by timestamp,
stable. -/
def article_desc_le (a b : Article) : Prop := b.datetime ≤ a.datetime

instance : DecidableRel article_desc_le := fun a b => by
  unfold article_desc_le; infer_instance

/-- The error get_company_news raises for a given failed fetch outcome
(the except clauses at lines 115-129). -/
def news_fetch_error : NewsFetchOutcome → Option NewsError
  | .ok _ => none
  | .httpStatus s =>
    some (if s = 404 then .invalidSymbol else if s = 429 then .rateLimited else .unavailable)
  | .timeoutExc => some .unavailable
  | .otherExc => some .unavailable

/-- NewsService.get_company_news (lines 37-129). The fetch oracle stands
for the company-news HTTP request for a symbol; the date-range parameters
it would receive are determined by days and are not observable in the
result, so they stay inside the oracle. On success the provider items are
reduced to the six copied fields, items without a headline are dropped,
the rest are sorted newest first, truncated to 10, and cached for 300
seconds under (normalized symbol, days). -/
def get_company_news (apiKey : String) (fetch : String → NewsFetchOutcome)
    (cache : NewsCache) (now : ℚ) (symbol : String) (days : Int) :
    Except NewsError (List Article) × NewsCache :=
  if symbol = "" then (.error .invalidSymbol, cache)
  else if apiKey = "" then (.error .notConfigured, cache)
  else
    let key := NewsCacheKey.companyNews (norm_sym symbol) days
    let hit : Option (List Article) :=
      match cache.lookup key with
      | some (expiry, value) => if now < expiry then some value else none
      | none => none
    match hit with
    | some value => (.ok value, cache)
    | none =>
      match fetch symbol with
      | .ok newsData =>
        let filtered := (newsData.filter (fun it => it.headline ≠ "")).map
          (fun it => { headline := it.headline, summary := it.summary,
                       url := it.url, source := it.source,
                       datetime := it.datetime, image := it.image,
                       symbol := none : Article })
        let sorted := filtered.insertionSort article_desc_le
        let result := sorted.take 10
        (.ok result, news_cache_insert cache key (now + 300) result)
      | .httpStatus s =>
        if s = 404 then (.error .invalidSymbol, cache)
        else if s = 429 then (.error .rateLimited, cache)
        else (.error .unavailable, cache)
      | .timeoutExc => (.error .unavailable, cache)
      | .otherExc => (.error .unavailable, cache)

/-- One iteration of the deduplication loop of get_watchlist_news (lines
151-158): normalize the symbol, skip empties and repeats, otherwise keep
it, preserving first-seen order. -/
def dedup_step (acc : List String) (raw : String) : List String :=
  let sym := norm_sym raw
  if sym = "" ∨ sym ∈ acc then acc else acc ++ [sym]

/-- The deduplication loop of get_watchlist_news (lines 151-158). -/
def dedup_symbols (symbols : List String) : List String :=
  symbols.foldl dedup_step []

/-- The symbol list get_watchlist_news actually iterates (lines 151-164):
deduplicated, optionally restricted to one symbol, truncated to
maxSymbols. -/
def processed_symbols (symbols : List String) (symbolFilter : Option String)
    (maxSymbols : Nat) : List String :=
  let uniq := dedup_symbols symbols
  let filtered :=
    match symbolFilter with
    | some sf => if sf = "" then uniq else uniq.filter (fun s => s = norm_sym sf)
    | none => uniq
  filtered.take maxSymbols

/-- The aggregation cache key of get_watchlist_news (lines 166-174):
(sorted unique symbols, days, per-symbol limit, total limit, normalized
filter, cache version or empty string). -/
def aggregation_key (symbols : List String)
    (days perSymbolLimit totalLimit : Int) (symbolFilter : Option String)
    (cacheVersion : Option String) : NewsCacheKey :=
  .aggregation (symbols.insertionSort (fun a b => pyStrLe a b = true))
    days perSymbolLimit totalLimit
    (norm_sym (symbolFilter.getD "")) (cacheVersion.getD "")

/-- The per-symbol fetch loop of get_watchlist_news (lines 182-188): fetch
each symbol through get_company_news, take the first max(1, perSymbol)
items, tag them with the symbol, and append. An exception from
get_company_news propagates, aborting the loop; the cache keeps the
writes made before the failure. -/
def watchlist_fetch_loop (apiKey : String)
    (fetch : String → NewsFetchOutcome) (now : ℚ)
    (days perSymbolLimit : Int) :
    List String → NewsCache → List Article →
    Except NewsError (List Article) × NewsCache
  | [], cache, acc => (.ok acc, cache)
  | sym :: rest, cache, acc =>
    match get_company_news apiKey fetch cache now sym days with
    | (.error e, cacheAfter) => (.error e, cacheAfter)
    | (.ok items, cacheAfter) =>
      let tagged := (items.take (max 1 perSymbolLimit).toNat).map
        (fun it => { it with symbol := some sym })
      watchlist_fetch_loop apiKey fetch now days perSymbolLimit rest cacheAfter
        (acc ++ tagged)

/-- What one call to get_watchlist_news produces: the articles or the
propagated error, the cache after the call, and whether the articles were
served from the aggregation-level cache entry. -/
structure WatchlistNewsOutcome where
  result : Except NewsError (List Article)
  cache : NewsCache
  fromAggCache : Bool

/-- NewsService.get_watchlist_news (lines 132-196): dedupe and trim the
symbol list, consult the aggregation cache entry keyed with the version
token, otherwise fetch per symbol, merge, sort newest first, truncate to
max(1, total), and cache the aggregate for 300 seconds. -/
def get_watchlist_news (apiKey : String) (fetch : String → NewsFetchOutcome)
    (cache : NewsCache) (now : ℚ) (symbols : List String)
    (days perSymbolLimit totalLimit : Int) (maxSymbols : Nat)
    (symbolFilter : Option String) (cacheVersion : Option String) :
    WatchlistNewsOutcome :=
  let uniq := processed_symbols symbols symbolFilter maxSymbols
  let aggKey := aggregation_key uniq days perSymbolLimit totalLimit
    symbolFilter cacheVersion
  let hit : Option (List Article) :=
    match cache.lookup aggKey with
    | some (expiry, value) => if now < expiry then some value else none
    | none => none
  match hit with
  | some value => ⟨.ok value, cache, true⟩
  | none =>
    match watchlist_fetch_loop apiKey fetch now days perSymbolLimit uniq cache [] with
    | (.error e, cacheAfter) => ⟨.error e, cacheAfter, false⟩
    | (.ok aggregated, cacheAfter) =>
      let sorted := aggregated.insertionSort article_desc_le
      let result := sorted.take (max 1 totalLimit).toNat
      ⟨.ok result, news_cache_insert cacheAfter aggKey (now + 300) result, false⟩

/-! ## StockService (src/api/services/stock_service.py) -/

/-- One entry of the daily price history built by get_daily_prices. -/
structure PricePoint where
  date : String
  close : ℚ
deriving DecidableEq, Repr

/-- The dict returned by get_sma: the two date-keyed SMA maps and the two
latest scalar values (None when no data was available). -/
structure SmaData where
  sma50_values : List (String × ℚ)
  sma200_values : List (String × ℚ)
  sma50 : Option ℚ
  sma200 : Option ℚ
deriving DecidableEq, Repr

/-- One joined chart point: the price fields plus the optional SMA fields
that get_full_chart_data attaches when the date matches. -/
structure ChartPoint where
  date : String
  close : ℚ
  sma50 : Option ℚ
  sma200 : Option ℚ
deriving DecidableEq, Repr

/-- The aggregate returned by get_full_chart_data. -/
structure ChartData where
  symbol : String
  history : List ChartPoint
  latest_sma50 : Option ℚ
  latest_sma200 : Option ℚ
deriving DecidableEq, Repr

/-- The join step of get_full_chart_data (stock_service.py lines 154-160):
a point gets an SMA field exactly when its date is a key of the
corresponding SMA map. -/
def join_sma (sma : SmaData) (p : PricePoint) : ChartPoint :=
  { date := p.date, close := p.close,
    sma50 := sma.sma50_values.lookup p.date,
    sma200 := sma.sma200_values.lookup p.date }

/-- StockService.get_full_chart_data (lines 142-169), parameterized by the
already fetched daily price history and SMA data (the two upstream
fetches it performs first). -/
def get_full_chart_data (symbol : String) (prices : List PricePoint)
    (sma : SmaData) : ChartData :=
  { symbol := pyUpper symbol,
    history := prices.map (join_sma sma),
    latest_sma50 := sma.sma50,
    latest_sma200 := sma.sma200 }

/-! ## CatalystsService (src/api/services/catalysts_service.py) -/

/-- models.WatchlistItem. -/
structure WatchlistItem where
  symbol : String
  country : Option String
  industry : Option String
  sector : Option String
deriving DecidableEq, Repr

/-- models.Watchlist. -/
structure Watchlist where
  id : String
  name : String
  items : List WatchlistItem
  created_utc : String
  updated_utc : String
deriving DecidableEq, Repr

/-- The two admissible values of models.CatalystEvent.type. -/
inductive CatalystType where
  | earnings
  | macroEv
deriving DecidableEq, Repr

/-- models.CatalystEvent. The id field of earnings events is a fresh
uuid4 in the source; no claim observes ids, so earnings ids are embedded
as the empty string. The free-form meta map is likewise unobserved and
omitted. -/
structure CatalystEvent where
  id : String
  type : CatalystType
  title : String
  utc_time : String
  date : String
  symbol : Option String
  country : Option String
  impact : Option String
  sectors : List String
  source : Option String
  url : Option String
deriving DecidableEq, Repr

/-- models.CatalystsResponse, with the two keys of the providers dict as
explicit fields. -/
structure CatalystsResponse where
  watchlist_id : Option String
  from_date : String
  to_date : String
  countries : List String
  sectors : List String
  events : List CatalystEvent
  earnings_provider : String
  macro_provider : String
deriving DecidableEq, Repr

/-- The ValueError get_catalysts raises when the requested watchlist does
not resolve. -/
inductive CatalystsError where
  | watchlistNotFound
deriving DecidableEq, Repr

/-- catalysts_service._collect_watchlist_axes (lines 53-56): the sorted
sets of normalized countries and of sectors present in the watchlist. -/
def collect_watchlist_axes (w : Watchlist) : List String × List String :=
  let countries :=
    ((w.items.filterMap (fun i =>
        match i.country with
        | some c => if c ≠ "" then some (pyUpper (pyStrip c)) else none
        | none => none)).dedup).insertionSort (fun a b => pyStrLe a b = true)
  let sectors :=
    ((w.items.filterMap (fun i =>
        match i.sector with
        | some s => if s ≠ "" then some (pyStrip s) else none
        | none => none)).dedup).insertionSort (fun a b => pyStrLe a b = true)
  (countries, sectors)

/-- One row of the earnings calendar payload. The provider fields beyond
date and hour only populate the unobserved meta map and are omitted. -/
structure EarningEntry where
  date : Option String
  hour : Option String
deriving DecidableEq, Repr

/-- The per-entry body of the earnings loop (lines 103-137): entries
without a date are dropped, the rest become date-only earnings events
whose title carries the optional session-hour hint. -/
def earnings_events_for_item (item : WatchlistItem)
    (entries : List EarningEntry) : List CatalystEvent :=
  entries.filterMap (fun e =>
    match e.date with
    | none => none
    | some dateStr =>
      if dateStr = "" then none
      else
        let baseTitle := item.symbol ++ " earnings"
        let title :=
          match e.hour with
          | some h => if h ≠ "" then baseTitle ++ " (" ++ h ++ ")" else baseTitle
          | none => baseTitle
        some { id := "", type := .earnings, title := title,
               utc_time := dateStr ++ "T00:00:00Z", date := dateStr,
               symbol := some item.symbol, country := item.country,
               impact := none,
               sectors := (match item.sector with
                 | some s => if s ≠ "" then [s] else []
                 | none => []),
               source := some "Finnhub", url := none })

/-- The country filter applied to curated macro events (lines 152-161): an
event is dropped exactly when a watchlist is active, the watchlist has
countries, the event has a non-empty country of exactly two characters,
and that country is not in the watchlist set. Sectors never participate. -/
def macro_event_kept (watchlistActive : Bool) (countries : List String)
    (e : CatalystEvent) : Bool :=
  !(watchlistActive && !countries.isEmpty &&
    (match e.country with
     | some c => c ≠ "" && c.length == 2 && !(countries.contains c)
     | none => false))

/-- The ordering get_catalysts sorts by (line 164): the Python tuple key
(utc_time, title) compared lexicographically, ascending. -/
def event_sort_le (a b : CatalystEvent) : Prop :=
  pyStrLt a.utc_time b.utc_time = true ∨
    (a.utc_time = b.utc_time ∧ pyStrLe a.title b.title = true)

instance : DecidableRel event_sort_le := fun a b => by
  unfold event_sort_le; infer_instance

/-- The body of the per-symbol earnings loop of get_catalysts (lines
93-141): fetch the earnings calendar for one watchlist item, append the
resulting events, and on any exception mark the earnings provider
degraded and continue. -/
def earnings_step (earningsFetch : String → Except Unit (List EarningEntry))
    (acc : List CatalystEvent × String) (item : WatchlistItem) :
    List CatalystEvent × String :=
  match earningsFetch item.symbol with
  | .ok entries => (acc.1 ++ earnings_events_for_item item entries, acc.2)
  | .error _ => (acc.1, "degraded")

/-- The body of CatalystsService.get_catalysts once the watchlist question
is settled (lines 67-174 minus the lookup): collect the filter axes, run
the per-symbol earnings loop with its per-symbol catch that marks the
earnings provider degraded, filter the curated macro events by country,
merge and sort. The earnings oracle stands for
FinnhubService.get_earnings_calendar, whose exceptions are all caught by
the per-symbol except clause. -/
def get_catalysts_found (watchlist : Option Watchlist)
    (earningsFetch : String → Except Unit (List EarningEntry))
    (curatedEvents : List CatalystEvent) (from_date to_date : String) :
    CatalystsResponse :=
  let axes :=
    match watchlist with
    | some w => collect_watchlist_axes w
    | none => ([], [])
  let countries := axes.1
  let sectors := axes.2
  let earningsPart :=
    match watchlist with
    | some w => w.items.foldl (earnings_step earningsFetch) ([], "ok")
    | none => ([], "skipped_no_watchlist")
  let macroStatus := if curatedEvents.isEmpty then "curated_empty" else "curated"
  let keptEvents := curatedEvents.filter (macro_event_kept watchlist.isSome countries)
  let events := (earningsPart.1 ++ keptEvents).insertionSort event_sort_le
  { watchlist_id := watchlist.map Watchlist.id,
    from_date := from_date, to_date := to_date,
    countries := countries, sectors := sectors,
    events := events,
    earnings_provider := earningsPart.2,
    macro_provider := macroStatus }

/-- CatalystsService.get_catalysts (lines 67-174). The watchlistLookup
argument reflects the user context: none when no user or watchlist id was
supplied, some none when an id was supplied but did not resolve (the
ValueError path), some (some w) when it resolved to w. -/
def get_catalysts (watchlistLookup : Option (Option Watchlist))
    (earningsFetch : String → Except Unit (List EarningEntry))
    (curatedEvents : List CatalystEvent) (from_date to_date : String) :
    Except CatalystsError CatalystsResponse :=
  match watchlistLookup with
  | some none => .error .watchlistNotFound
  | some (some w) => .ok (get_catalysts_found (some w) earningsFetch curatedEvents from_date to_date)
  | none => .ok (get_catalysts_found none earningsFetch curatedEvents from_date to_date)

/-! ## Order facts about the embedded string comparison -/

theorem charsLe_cons (a b : Char) (as bs : List Char) :
    charsLe (a :: as) (b :: bs) =
      if a < b then true else if b < a then false else charsLe as bs := rfl

theorem charsLe_total : ∀ a b : List Char, charsLe a b = true ∨ charsLe b a = true
  | [], _ => Or.inl rfl
  | _ :: _, [] => Or.inr rfl
  | a :: as, b :: bs => by
    rcases lt_trichotomy a b with h | h | h
    · left; rw [charsLe_cons, if_pos h]
    · subst h
      rw [charsLe_cons, if_neg (lt_irrefl a), if_neg (lt_irrefl a)]
      rcases charsLe_total as bs with h2 | h2
      · exact Or.inl h2
      · right; rw [charsLe_cons, if_neg (lt_irrefl a), if_neg (lt_irrefl a)]; exact h2
    · right; rw [charsLe_cons, if_pos h]

theorem charsLe_trans :
    ∀ a b c : List Char, charsLe a b = true → charsLe b c = true → charsLe a c = true
  | [], _, _, _, _ => rfl
  | _ :: _, [], _, h, _ => by simp [charsLe] at h
  | _ :: _, _ :: _, [], _, h2 => by simp [charsLe] at h2
  | a :: as, b :: bs, c :: cs, h1, h2 => by
    rw [charsLe_cons] at h1 h2 ⊢
    rcases lt_trichotomy a b with hab | hab | hab
    · rcases lt_trichotomy b c with hbc | hbc | hbc
      · rw [if_pos (hab.trans hbc)]
      · subst hbc; rw [if_pos hab]
      · rw [if_neg (lt_asymm hbc), if_pos hbc] at h2; exact absurd h2 Bool.false_ne_true
    · subst hab
      rw [if_neg (lt_irrefl a), if_neg (lt_irrefl a)] at h1
      rcases lt_trichotomy a c with hac | hac | hac
      · rw [if_pos hac]
      · subst hac
        rw [if_neg (lt_irrefl a), if_neg (lt_irrefl a)] at h2 ⊢
        exact charsLe_trans _ _ _ h1 h2
      · rw [if_neg (lt_asymm hac), if_pos hac] at h2; exact absurd h2 Bool.false_ne_true
    · rw [if_neg (lt_asymm hab), if_pos hab] at h1; exact absurd h1 Bool.false_ne_true

theorem charsLe_antisymm : ∀ a b : List Char, charsLe a b = true → charsLe b a = true → a = b
  | [], [], _, _ => rfl
  | [], _ :: _, _, h2 => by simp [charsLe] at h2
  | _ :: _, [], h1, _ => by simp [charsLe] at h1
  | a :: as, b :: bs, h1, h2 => by
    rw [charsLe_cons] at h1 h2
    rcases lt_trichotomy a b with h | h | h
    · rw [if_neg (lt_asymm h), if_pos h] at h2; exact absurd h2 Bool.false_ne_true
    · subst h
      rw [if_neg (lt_irrefl a), if_neg (lt_irrefl a)] at h1 h2
      rw [charsLe_antisymm _ _ h1 h2]
    · rw [if_neg (lt_asymm h), if_pos h] at h1; exact absurd h1 Bool.false_ne_true

theorem string_data_eq {a b : String} (h : a.data = b.data) : a = b := by
  cases a
  cases b
  exact congrArg String.mk h

theorem pyStrLe_total (a b : String) : pyStrLe a b = true ∨ pyStrLe b a = true :=
  charsLe_total a.data b.data

theorem pyStrLe_trans {a b c : String} (h1 : pyStrLe a b = true) (h2 : pyStrLe b c = true) :
    pyStrLe a c = true :=
  charsLe_trans a.data b.data c.data h1 h2

theorem pyStrLe_antisymm {a b : String} (h1 : pyStrLe a b = true) (h2 : pyStrLe b a = true) :
    a = b :=
  string_data_eq (charsLe_antisymm a.data b.data h1 h2)

theorem pyStrLt_iff_not_le {a b : String} : pyStrLt a b = true ↔ ¬ pyStrLe b a = true := by
  unfold pyStrLt pyStrLe
  cases charsLe b.data a.data <;> simp

instance : IsTotal String (fun a b => pyStrLe a b = true) := ⟨pyStrLe_total⟩

instance : IsTrans String (fun a b => pyStrLe a b = true) := ⟨fun _ _ _ => pyStrLe_trans⟩

instance : IsTotal Article article_desc_le :=
  ⟨fun a b => Int.le_total b.datetime a.datetime⟩

instance : IsTrans Article article_desc_le :=
  ⟨fun _ _ _ h1 h2 => le_trans h2 h1⟩

instance : IsTotal CatalystEvent event_sort_le := by
  constructor
  intro a b
  cases hba : charsLe b.utc_time.data a.utc_time.data with
  | false =>
    left; left
    unfold pyStrLt
    rw [hba]
    rfl
  | true =>
    cases hab : charsLe a.utc_time.data b.utc_time.data with
    | false =>
      right; left
      unfold pyStrLt
      rw [hab]
      rfl
    | true =>
      have he : a.utc_time = b.utc_time := string_data_eq (charsLe_antisymm _ _ hab hba)
      rcases pyStrLe_total a.title b.title with ht | ht
      · exact Or.inl (Or.inr ⟨he, ht⟩)
      · exact Or.inr (Or.inr ⟨he.symm, ht⟩)

theorem pyStrLt_trans {a b c : String}
    (h1 : pyStrLt a b = true) (h2 : pyStrLt b c = true) : pyStrLt a c = true := by
  rw [pyStrLt_iff_not_le] at h1 h2 ⊢
  intro hca
  rcases pyStrLe_total a b with hab | hba
  · exact h2 (pyStrLe_trans hca hab)
  · exact h1 hba

instance : IsTrans CatalystEvent event_sort_le := by
  constructor
  intro a b c h1 h2
  rcases h1 with h1 | ⟨he1, ht1⟩ <;> rcases h2 with h2 | ⟨he2, ht2⟩
  · exact Or.inl (pyStrLt_trans h1 h2)
  · exact Or.inl (he2 ▸ h1)
  · exact Or.inl (he1 ▸ h2)
  · exact Or.inr ⟨he1.trans he2, pyStrLe_trans ht1 ht2⟩

/-! ## Association-list cache lemmas -/

theorem lookup_filter_ne {κ β : Type} [DecidableEq κ] (k x : κ) (h : k ≠ x) :
    ∀ l : List (κ × β), (l.filter (fun kv => kv.1 ≠ x)).lookup k = l.lookup k
  | [] => rfl
  | (k1, v1) :: tl => by
    by_cases hx : k1 = x
    · subst hx
      have hk : (k == k1) = false := beq_eq_false_iff_ne.mpr h
      rw [List.filter_cons, if_neg (by simp)]
      simp only [List.lookup, hk]
      exact lookup_filter_ne k k1 h tl
    · rw [List.filter_cons, if_pos (by simp [hx])]
      by_cases hk : k = k1
      · subst hk
        simp [List.lookup]
      · have hkb : (k == k1) = false := beq_eq_false_iff_ne.mpr hk
        simp only [List.lookup, hkb]
        exact lookup_filter_ne k x h tl

theorem lookup_filter_self {κ β : Type} [DecidableEq κ] (k : κ) :
    ∀ l : List (κ × β), (l.filter (fun kv => kv.1 ≠ k)).lookup k = none
  | [] => rfl
  | (k1, v1) :: tl => by
    by_cases hx : k1 = k
    · subst hx
      rw [List.filter_cons, if_neg (by simp)]
      exact lookup_filter_self k1 tl
    · rw [List.filter_cons, if_pos (by simp [hx])]
      have hkb : (k == k1) = false := beq_eq_false_iff_ne.mpr (fun hh => hx hh.symm)
      simp only [List.lookup, hkb]
      exact lookup_filter_self k tl

/-! ## C4: the upstream cache key excludes the credential -/

theorem filter_map_token (t : String) :
    ∀ l : List (String × String),
      (l.map (fun kv => if kv.1 = "token" then ("token", t) else kv)).filter
          (fun kv => kv.1 ≠ "token") = l.filter (fun kv => kv.1 ≠ "token")
  | [] => rfl
  | hd :: tl => by
    by_cases hx : hd.1 = "token"
    · rw [List.map_cons, if_pos hx, List.filter_cons, List.filter_cons]
      rw [if_neg (by simp), if_neg (by simp [hx])]
      exact filter_map_token t tl
    · rw [List.map_cons, if_neg hx, List.filter_cons, List.filter_cons]
      rw [if_pos (by simp [hx]), if_pos (by simp [hx])]
      rw [filter_map_token t tl]

theorem filter_set_param_token (t : String) (l : List (String × String)) :
    (set_param l "token" t).filter (fun kv => kv.1 ≠ "token") =
      l.filter (fun kv => kv.1 ≠ "token") := by
  unfold set_param
  by_cases hs : (l.lookup "token").isSome
  · rw [if_pos hs]
    exact filter_map_token t l
  · rw [if_neg hs, List.filter_append]
    simp [List.filter_cons]

theorem cache_key_congr (path : String) {p q : List (String × String)}
    (h : p.filter (fun kv => kv.1 ≠ "token") = q.filter (fun kv => kv.1 ≠ "token")) :
    cache_key path p = cache_key path q := by
  unfold cache_key
  rw [h]

/-- C4: the cache key of the upstream client is a deterministic function of
the path and the sorted non-secret parameters only: writing the token
parameter with two different credential values yields the same key, and
that key coincides with the key of the parameter map before the token was
added, so the credential value never enters the key. -/
theorem c4_cache_key_token_independent (path : String)
    (params : List (String × String)) (t1 t2 : String) :
    cache_key path (set_param params "token" t1)
        = cache_key path (set_param params "token" t2)
    ∧ cache_key path (set_param params "token" t1) = cache_key path params := by
  constructor
  · exact cache_key_congr path
      ((filter_set_param_token t1 params).trans (filter_set_param_token t2 params).symm)
  · exact cache_key_congr path (filter_set_param_token t1 params)

/-! ## C5: TTL cache visibility -/

/-- C5: a TTL-cache entry is visible only while now is strictly before its
expiry; a get at or past the expiry returns absent and removes the entry,
so any subsequent lookup misses; and a set with a non-positive TTL stores
nothing. -/
theorem c5_cache_ttl_visibility {α : Type} (cache : List (String × ℚ × α))
    (key : String) (now : ℚ) :
    (∀ expiresAt (v : α), cache.lookup key = some (expiresAt, v) → expiresAt ≤ now →
        cache_get cache key now = (none, cache.filter (fun kv => kv.1 ≠ key))
        ∧ ∀ now2, (cache_get (cache.filter (fun kv => kv.1 ≠ key)) key now2).1 = none)
    ∧ (∀ v : α, (cache_get cache key now).1 = some v →
        ∃ expiresAt, cache.lookup key = some (expiresAt, v) ∧ now < expiresAt)
    ∧ (∀ (v : α) (ttl : Int), ttl ≤ 0 → cache_set cache key v ttl now = cache) := by
  refine ⟨?_, ?_, ?_⟩
  · intro e v hl he
    constructor
    · unfold cache_get
      rw [hl]
      simp [he]
    · intro now2
      unfold cache_get
      rw [lookup_filter_self]
  · intro v hv
    unfold cache_get at hv
    cases hl : cache.lookup key with
    | none => rw [hl] at hv; simp at hv
    | some ev =>
      obtain ⟨e, w⟩ := ev
      rw [hl] at hv
      by_cases he : e ≤ now
      · simp [he] at hv
      · simp [he] at hv
        subst hv
        exact ⟨e, rfl, not_le.mp he⟩
  · intro v ttl httl
    unfold cache_set
    rw [if_pos httl]

theorem c5_witness :
    ([("k", ((10:ℚ), (42:Nat)))].lookup "k" = some (10, 42) ∧ (10:ℚ) ≤ 10)
    ∧ cache_get [("k", ((10:ℚ), (42:Nat)))] "k" 10
        = (none, [("k", ((10:ℚ), (42:Nat)))].filter (fun kv => kv.1 ≠ "k"))
    ∧ (cache_get ([("k", ((10:ℚ), (42:Nat)))].filter (fun kv => kv.1 ≠ "k")) "k" 11).1 = none
    ∧ cache_set [("k", ((10:ℚ), (42:Nat)))] "k" 99 0 10 = [("k", ((10:ℚ), (42:Nat)))] :=
  ⟨⟨by decide, by norm_num⟩,
   ((c5_cache_ttl_visibility [("k", ((10:ℚ), (42:Nat)))] "k" 10).1 10 42 (by decide)
      (by norm_num)).1,
   ((c5_cache_ttl_visibility [("k", ((10:ℚ), (42:Nat)))] "k" 10).1 10 42 (by decide)
      (by norm_num)).2 11,
   (c5_cache_ttl_visibility [("k", ((10:ℚ), (42:Nat)))] "k" 10).2.2 99 0 (by norm_num)⟩

/-! ## C2: a 4xx other than 429 is in fact retried (code bug) -/

/-- C2, evaluated at the failing input: with the key configured, an empty
cache and a provider that answers HTTP 404 on every attempt, _get_json
does not fail immediately: the HTTPError that raise_for_status throws for
the 404 is caught by the same except clause as the transient errors, so
the client performs all 3 network attempts and sleeps twice, for 0.5 and
1.0 seconds with zero jitter, before surfacing the HTTPError. -/
theorem c2_404_retried_three_times :
    (get_json "k" 3 ([] : List (String × ℚ × Nat)) 0 "/stock/profile2"
        [("symbol", "NOSUCH")] 60 (fun _ => .http 404 0) (fun _ => 0)).1.result
      = .error (.httpStatus 404)
    ∧ (get_json "k" 3 ([] : List (String × ℚ × Nat)) 0 "/stock/profile2"
        [("symbol", "NOSUCH")] 60 (fun _ => .http 404 0) (fun _ => 0)).1.networkCalls = 3
    ∧ (get_json "k" 3 ([] : List (String × ℚ × Nat)) 0 "/stock/profile2"
        [("symbol", "NOSUCH")] 60 (fun _ => .http 404 0) (fun _ => 0)).1.sleeps
      = [sleep_seconds 0 0, sleep_seconds 1 0]
    ∧ sleep_seconds 0 0 = 1 / 2 ∧ sleep_seconds 1 0 = 1 := by
  refine ⟨rfl, rfl, rfl, ?_, ?_⟩
  · unfold sleep_seconds
    rw [min_eq_right (by norm_num)]
    norm_num
  · unfold sleep_seconds
    rw [min_eq_right (by norm_num)]
    norm_num

/-! ## C6: transient retry with exponential backoff and jitter -/

theorem get_json_loop_transient_then_success {α : Type}
    (outcome : Nat → AttemptOutcome α) (jitter : Nat → ℚ) (N : Nat)
    (payload : α)
    (htrans : ∀ i, i < N - 1 → ∃ e, classify_attempt (outcome i) = .transient e)
    (hsucc : classify_attempt (outcome (N - 1)) = .success payload) :
    ∀ (r a : Nat), a + r = N → a < N →
      ∀ (last : Option UpstreamError) (sleeps : List ℚ) (calls : Nat),
      get_json_loop outcome jitter N a r last sleeps calls =
        ⟨.ok payload,
         sleeps ++ (List.range' a (N - 1 - a)).map (fun i => sleep_seconds i (jitter i)),
         calls + (N - a)⟩ := by
  intro r
  induction r with
  | zero =>
    intro a har ha
    omega
  | succ r ih =>
    intro a har ha last sleeps calls
    by_cases hlast : a = N - 1
    · subst hlast
      unfold get_json_loop
      rw [hsucc]
      have h1 : N - 1 - (N - 1) = 0 := by omega
      have h2 : N - (N - 1) = 1 := by omega
      rw [h1, h2]
      simp
    · have ha2 : a < N - 1 := by omega
      obtain ⟨e, he⟩ := htrans a ha2
      unfold get_json_loop
      simp only [he]
      rw [if_neg (show ¬ (N - 1 ≤ a) by omega)]
      rw [ih (a + 1) (by omega) (by omega)]
      have hr : N - 1 - a = (N - 1 - (a + 1)) + 1 := by omega
      have hc : calls + 1 + (N - (a + 1)) = calls + (N - a) := by omega
      rw [hr, List.range'_succ, hc]
      simp

/-- C6: when every attempt before the last answers 429 or 5xx and the final
allowed attempt answers 200, _get_json returns the 200 payload, the
sleeps performed are exactly min(5, 0.5 * 2 ** i + jitter i) for the
attempts 0 .. N-2 (so none after the final attempt), and exactly N
network calls are made. -/
theorem c6_retry_backoff_success {α : Type} (apiKey : String) (N : Nat)
    (cache : List (String × ℚ × α)) (now : ℚ) (path : String)
    (params : List (String × String)) (ttl : Int)
    (outcome : Nat → AttemptOutcome α) (jitter : Nat → ℚ) (payload : α)
    (hkey : ¬ apiKey = "") (hN : 1 ≤ N)
    (hmiss : (cache_get cache (cache_key path (set_param params "token" apiKey)) now).1 = none)
    (htrans : ∀ i, i < N - 1 →
        ∃ s p, outcome i = .http s p ∧ (s = 429 ∨ (500 ≤ s ∧ s ≤ 599)))
    (hsucc : outcome (N - 1) = .http 200 payload) :
    (get_json apiKey N cache now path params ttl outcome jitter).1.result = .ok payload
    ∧ (get_json apiKey N cache now path params ttl outcome jitter).1.sleeps
        = (List.range (N - 1)).map (fun i => sleep_seconds i (jitter i))
    ∧ (get_json apiKey N cache now path params ttl outcome jitter).1.networkCalls = N := by
  have htrans2 : ∀ i, i < N - 1 → ∃ e, classify_attempt (outcome i) = .transient e := by
    intro i hi
    obtain ⟨s, p, ho, hs⟩ := htrans i hi
    refine ⟨.httpStatus s, ?_⟩
    rw [ho]
    simp only [classify_attempt]
    rw [if_pos hs]
  have hsucc2 : classify_attempt (outcome (N - 1)) = .success payload := by
    rw [hsucc]
    simp only [classify_attempt]
    norm_num
  have hmax : max N 1 = N := by omega
  have hloop := get_json_loop_transient_then_success outcome jitter N payload htrans2 hsucc2
      N 0 (by omega) (by omega) none [] 0
  unfold get_json
  rw [if_neg hkey]
  rcases hcg : cache_get cache (cache_key path (set_param params "token" apiKey)) now
    with ⟨o, cacheAfter⟩
  rw [hcg] at hmiss
  simp only at hmiss
  subst hmiss
  refine ⟨?_, ?_, ?_⟩ <;>
    simp [hcg, hmax, hloop, ← List.range_eq_range']

theorem c6_witness :
    (get_json "k" 3 ([] : List (String × ℚ × Nat)) 0 "/quote" [("symbol", "AAPL")] 60
        (fun i => if i < 2 then .http 429 0 else .http 200 77) (fun _ => 0)).1.result
      = .ok 77
    ∧ (get_json "k" 3 ([] : List (String × ℚ × Nat)) 0 "/quote" [("symbol", "AAPL")] 60
        (fun i => if i < 2 then .http 429 0 else .http 200 77) (fun _ => 0)).1.sleeps
      = (List.range (3 - 1)).map (fun i => sleep_seconds i ((fun _ => (0:ℚ)) i))
    ∧ (get_json "k" 3 ([] : List (String × ℚ × Nat)) 0 "/quote" [("symbol", "AAPL")] 60
        (fun i => if i < 2 then .http 429 0 else .http 200 77) (fun _ => 0)).1.networkCalls
      = 3 :=
  c6_retry_backoff_success "k" 3 [] 0 "/quote" [("symbol", "AAPL")] 60
    (fun i => if i < 2 then .http 429 0 else .http 200 77) (fun _ => 0) 77
    (by decide) (by norm_num) rfl
    (by
      intro i hi
      refine ⟨429, 0, ?_, Or.inl rfl⟩
      have hi2 : i < 2 := by omega
      simp [hi2])
    (by norm_num)

/-! ## C8: price/SMA join -/

/-- C8: every point produced by get_full_chart_data keeps a date of the
fetched daily price series, and its optional SMA fields are exactly the
lookups of its date in the fetched SMA maps: present with the value of
the map when the date is a key, absent otherwise. -/
theorem c8_chart_join_sma (symbol : String) (prices : List PricePoint)
    (sma : SmaData) :
    ∀ p ∈ (get_full_chart_data symbol prices sma).history,
      p.date ∈ prices.map PricePoint.date
      ∧ p.sma50 = sma.sma50_values.lookup p.date
      ∧ p.sma200 = sma.sma200_values.lookup p.date := by
  intro p hp
  unfold get_full_chart_data at hp
  simp only [List.mem_map] at hp
  obtain ⟨q, hq, rfl⟩ := hp
  exact ⟨List.mem_map.mpr ⟨q, hq, rfl⟩, rfl, rfl⟩

theorem c8_witness :
    ((⟨"2024-01-03", 3, some 100, none⟩ : ChartPoint)
        ∈ (get_full_chart_data "ibm" [⟨"2024-01-01", 1⟩, ⟨"2024-01-03", 3⟩]
            ⟨[("2024-01-03", 100)], [], some 100, none⟩).history)
    ∧ ((⟨"2024-01-03", 3, some 100, none⟩ : ChartPoint).date
          ∈ ([⟨"2024-01-01", 1⟩, ⟨"2024-01-03", 3⟩] : List PricePoint).map PricePoint.date
       ∧ (⟨"2024-01-03", 3, some 100, none⟩ : ChartPoint).sma50
          = ([("2024-01-03", (100:ℚ))]).lookup (⟨"2024-01-03", 3, some 100, none⟩ : ChartPoint).date
       ∧ (⟨"2024-01-03", 3, some 100, none⟩ : ChartPoint).sma200
          = ([] : List (String × ℚ)).lookup (⟨"2024-01-03", 3, some 100, none⟩ : ChartPoint).date) :=
  ⟨by decide,
   c8_chart_join_sma "ibm" [⟨"2024-01-01", 1⟩, ⟨"2024-01-03", 3⟩]
     ⟨[("2024-01-03", 100)], [], some 100, none⟩
     ⟨"2024-01-03", 3, some 100, none⟩ (by decide)⟩

/-! ## C10: catalysts ordering -/

/-- C10: the merged earnings plus macro event list of every getCatalysts
response is sorted ascending by the pair (UTC timestamp, title); in
particular two events with equal timestamps appear in ascending title
order, as the concrete Alpha/Zeta tie shows. -/
theorem c10_catalysts_sorted :
    (∀ (watchlist : Option Watchlist)
        (earningsFetch : String → Except Unit (List EarningEntry))
        (curatedEvents : List CatalystEvent) (from_date to_date : String),
        (get_catalysts_found watchlist earningsFetch curatedEvents
            from_date to_date).events.Pairwise event_sort_le)
    ∧ (get_catalysts_found none (fun _ => .error ())
        [⟨"z", .macroEv, "Zeta", "2024-02-01T00:00:00Z", "2024-02-01",
          none, none, none, [], some "Curated", none⟩,
         ⟨"a", .macroEv, "Alpha", "2024-02-01T00:00:00Z", "2024-02-01",
          none, none, none, [], some "Curated", none⟩]
        "2024-01-01" "2024-03-01").events.map CatalystEvent.title = ["Alpha", "Zeta"] := by
  constructor
  · intro w ef cm f t
    exact List.sorted_insertionSort event_sort_le _
  · decide

/-! ## C9: macro country filter -/

theorem earnings_events_type (item : WatchlistItem) (entries : List EarningEntry) :
    ∀ ev ∈ earnings_events_for_item item entries, ev.type = .earnings := by
  intro ev hev
  unfold earnings_events_for_item at hev
  rw [List.mem_filterMap] at hev
  obtain ⟨entry, _, hmk⟩ := hev
  cases hd : entry.date with
  | none => rw [hd] at hmk; simp at hmk
  | some d =>
    rw [hd] at hmk
    by_cases hde : d = ""
    · simp [hde] at hmk
    · simp [hde] at hmk
      rw [← hmk]

theorem earnings_fold_type (earningsFetch : String → Except Unit (List EarningEntry)) :
    ∀ (items : List WatchlistItem) (acc : List CatalystEvent × String),
      (∀ ev ∈ acc.1, ev.type = .earnings) →
      ∀ ev ∈ (items.foldl (earnings_step earningsFetch) acc).1, ev.type = .earnings
  | [], _, hacc => hacc
  | item :: rest, acc, hacc => by
    rw [List.foldl_cons]
    apply earnings_fold_type earningsFetch rest
    unfold earnings_step
    cases hf : earningsFetch item.symbol with
    | ok entries =>
      intro ev hev
      rw [List.mem_append] at hev
      rcases hev with h | h
      · exact hacc ev h
      · exact earnings_events_type item entries ev h
    | error u =>
      exact hacc

/-- C9: with an active watchlist whose country set is non-empty, a curated
macro event with a two-letter country outside that set is excluded from
the getCatalysts response, one with no country or a country that is not
exactly two characters is retained, and the filter is independent of the
sectors carried by the event. -/
theorem c9_macro_country_filter (w : Watchlist)
    (earningsFetch : String → Except Unit (List EarningEntry))
    (curatedEvents : List CatalystEvent) (from_date to_date : String)
    (e : CatalystEvent)
    (hcountries : (collect_watchlist_axes w).1 ≠ [])
    (he : e ∈ curatedEvents) (htype : e.type = .macroEv) :
    (get_catalysts (some (some w)) earningsFetch curatedEvents from_date to_date
        = .ok (get_catalysts_found (some w) earningsFetch curatedEvents from_date to_date))
    ∧ (∀ c, e.country = some c → c.length = 2 → c ∉ (collect_watchlist_axes w).1 →
        e ∉ (get_catalysts_found (some w) earningsFetch curatedEvents from_date to_date).events)
    ∧ (e.country = none →
        e ∈ (get_catalysts_found (some w) earningsFetch curatedEvents from_date to_date).events)
    ∧ (∀ c, e.country = some c → c.length ≠ 2 →
        e ∈ (get_catalysts_found (some w) earningsFetch curatedEvents from_date to_date).events)
    ∧ (∀ (b : Bool) (cs ss : List String),
        macro_event_kept b cs { e with sectors := ss } = macro_event_kept b cs e) := by
  have hev : (get_catalysts_found (some w) earningsFetch curatedEvents from_date to_date).events
      = ((w.items.foldl (earnings_step earningsFetch) ([], "ok")).1
          ++ curatedEvents.filter
              (macro_event_kept true (collect_watchlist_axes w).1)).insertionSort
            event_sort_le := rfl
  have hperm := List.perm_insertionSort event_sort_le
    ((w.items.foldl (earnings_step earningsFetch) ([], "ok")).1
      ++ curatedEvents.filter (macro_event_kept true (collect_watchlist_axes w).1))
  have hnotempty : ((collect_watchlist_axes w).1).isEmpty = false := by
    cases hcl : (collect_watchlist_axes w).1 with
    | nil => exact absurd hcl hcountries
    | cons hd tl => rfl
  refine ⟨rfl, ?_, ?_, ?_, ?_⟩
  · intro c hc hlen hnotin hmem
    rw [hev, hperm.mem_iff, List.mem_append] at hmem
    rcases hmem with h | h
    · have := earnings_fold_type earningsFetch w.items ([], "ok")
        (by intro ev hx; exact absurd hx (List.not_mem_nil ev)) e h
      rw [htype] at this
      exact absurd this (by intro hx; cases hx)
    · have hcne : c ≠ "" := by
        intro h0
        rw [h0] at hlen
        exact absurd hlen (by decide)
      have hco : ((collect_watchlist_axes w).1).contains c = false := by
        cases hb : ((collect_watchlist_axes w).1).contains c with
        | false => rfl
        | true => exact absurd (List.mem_of_elem_eq_true hb) hnotin
      have hkept : macro_event_kept true ((collect_watchlist_axes w).1) e = false := by
        unfold macro_event_kept
        rw [hc]
        simp [hcne, hlen, hco, hnotempty, hnotin]
      rw [List.mem_filter] at h
      rw [hkept] at h
      exact absurd h.2 (by intro hx; cases hx)
  · intro hc
    have hkept : macro_event_kept true ((collect_watchlist_axes w).1) e = true := by
      unfold macro_event_kept
      rw [hc]
      simp
    rw [hev, hperm.mem_iff, List.mem_append]
    exact Or.inr (List.mem_filter.mpr ⟨he, hkept⟩)
  · intro c hc hlen
    have hl2 : (c.length == 2) = false := beq_eq_false_iff_ne.mpr hlen
    have hkept : macro_event_kept true ((collect_watchlist_axes w).1) e = true := by
      unfold macro_event_kept
      rw [hc]
      simp [hl2]
    rw [hev, hperm.mem_iff, List.mem_append]
    exact Or.inr (List.mem_filter.mpr ⟨he, hkept⟩)
  · intro b cs ss
    rfl

theorem c9_witness :
    ((collect_watchlist_axes
        ⟨"w1", "W", [⟨"AAPL", some "US", none, some "Technology"⟩], "c", "u"⟩).1 ≠ []
     ∧ ("DE" : String).length = 2
     ∧ "DE" ∉ (collect_watchlist_axes
        ⟨"w1", "W", [⟨"AAPL", some "US", none, some "Technology"⟩], "c", "u"⟩).1)
    ∧ (⟨"d", .macroEv, "DE CPI", "2024-02-02T00:00:00Z", "2024-02-02",
        none, some "DE", none, [], some "Curated", none⟩ : CatalystEvent)
      ∉ (get_catalysts_found
          (some ⟨"w1", "W", [⟨"AAPL", some "US", none, some "Technology"⟩], "c", "u"⟩)
          (fun _ => .error ())
          [⟨"d", .macroEv, "DE CPI", "2024-02-02T00:00:00Z", "2024-02-02",
            none, some "DE", none, [], some "Curated", none⟩]
          "2024-01-01" "2024-03-01").events :=
  ⟨⟨by decide, by decide, by decide⟩,
   (c9_macro_country_filter
      ⟨"w1", "W", [⟨"AAPL", some "US", none, some "Technology"⟩], "c", "u"⟩
      (fun _ => .error ())
      [⟨"d", .macroEv, "DE CPI", "2024-02-02T00:00:00Z", "2024-02-02",
        none, some "DE", none, [], some "Curated", none⟩]
      "2024-01-01" "2024-03-01"
      ⟨"d", .macroEv, "DE CPI", "2024-02-02T00:00:00Z", "2024-02-02",
        none, some "DE", none, [], some "Curated", none⟩
      (by decide) (by decide) rfl).2.1 "DE" rfl (by decide) (by decide)⟩

/-! ## C3: the aggregation cache key includes the version token -/

theorem lookup_news_cache_insert_ne (cache : NewsCache) (k k2 : NewsCacheKey)
    (ex : ℚ) (v : List Article) (h : k ≠ k2) :
    (news_cache_insert cache k2 ex v).lookup k = cache.lookup k := by
  unfold news_cache_insert
  have hb : (k == k2) = false := beq_eq_false_iff_ne.mpr h
  simp only [List.lookup, hb]
  exact lookup_filter_ne k k2 h cache

theorem get_company_news_lookup (apiKey : String) (fetch : String → NewsFetchOutcome)
    (cache : NewsCache) (now : ℚ) (symbol : String) (days : Int)
    (k : NewsCacheKey) (hk : ∀ s d, k ≠ .companyNews s d) :
    ((get_company_news apiKey fetch cache now symbol days).2).lookup k = cache.lookup k := by
  unfold get_company_news
  by_cases h1 : symbol = ""
  · rw [if_pos h1]
  · rw [if_neg h1]
    by_cases h2 : apiKey = ""
    · rw [if_pos h2]
    · rw [if_neg h2]
      rcases hl : cache.lookup (NewsCacheKey.companyNews (norm_sym symbol) days)
        with _ | ⟨exp, val⟩
      · simp only [hl]
        cases hf : fetch symbol with
        | ok newsData =>
          simp only
          exact lookup_news_cache_insert_ne _ _ _ _ _ (hk (norm_sym symbol) days)
        | httpStatus st => by_cases h404 : st = 404 <;> by_cases h429 : st = 429 <;>
            simp [h404, h429]
        | timeoutExc => simp
        | otherExc => simp
      · simp only [hl]
        by_cases hexp : now < exp
        · rw [if_pos hexp]
        · rw [if_neg hexp]
          simp only
          cases hf : fetch symbol with
          | ok newsData =>
            simp only
            exact lookup_news_cache_insert_ne _ _ _ _ _ (hk (norm_sym symbol) days)
          | httpStatus st => by_cases h404 : st = 404 <;> by_cases h429 : st = 429 <;>
              simp [h404, h429]
          | timeoutExc => simp
          | otherExc => simp

theorem watchlist_fetch_loop_lookup (apiKey : String)
    (fetch : String → NewsFetchOutcome) (now : ℚ) (days perSymbolLimit : Int)
    (k : NewsCacheKey) (hk : ∀ s d, k ≠ .companyNews s d) :
    ∀ (syms : List String) (cache : NewsCache) (acc : List Article),
      ((watchlist_fetch_loop apiKey fetch now days perSymbolLimit syms cache acc).2).lookup k
        = cache.lookup k
  | [], cache, acc => rfl
  | sym :: rest, cache, acc => by
    unfold watchlist_fetch_loop
    rcases hg : get_company_news apiKey fetch cache now sym days with ⟨res, cacheAfter⟩
    have hpres : cacheAfter.lookup k = cache.lookup k := by
      have hx := get_company_news_lookup apiKey fetch cache now sym days k hk
      rw [hg] at hx
      exact hx
    cases res with
    | error e =>
      simp only [hg]
      exact hpres
    | ok items =>
      simp only [hg]
      rw [watchlist_fetch_loop_lookup apiKey fetch now days perSymbolLimit k hk rest
        cacheAfter _]
      exact hpres

theorem get_watchlist_news_lookup (apiKey : String)
    (fetch : String → NewsFetchOutcome) (cache : NewsCache) (now : ℚ)
    (symbols : List String) (days perSymbolLimit totalLimit : Int) (maxSymbols : Nat)
    (symbolFilter cacheVersion : Option String) (k : NewsCacheKey)
    (hk1 : ∀ s d, k ≠ .companyNews s d)
    (hk2 : k ≠ aggregation_key (processed_symbols symbols symbolFilter maxSymbols)
        days perSymbolLimit totalLimit symbolFilter cacheVersion) :
    ((get_watchlist_news apiKey fetch cache now symbols days perSymbolLimit totalLimit
        maxSymbols symbolFilter cacheVersion).cache).lookup k = cache.lookup k := by
  unfold get_watchlist_news
  rcases hl : cache.lookup (aggregation_key (processed_symbols symbols symbolFilter maxSymbols)
      days perSymbolLimit totalLimit symbolFilter cacheVersion) with _ | ⟨exp, val⟩
  · simp only [hl]
    rcases hloop : watchlist_fetch_loop apiKey fetch now days perSymbolLimit
        (processed_symbols symbols symbolFilter maxSymbols) cache [] with ⟨res, c2⟩
    have hpres : c2.lookup k = cache.lookup k := by
      have hx := watchlist_fetch_loop_lookup apiKey fetch now days perSymbolLimit k hk1
        (processed_symbols symbols symbolFilter maxSymbols) cache []
      rw [hloop] at hx
      exact hx
    cases res with
    | error e =>
      simp only [hloop]
      exact hpres
    | ok agg =>
      simp only [hloop]
      rw [lookup_news_cache_insert_ne _ _ _ _ _ hk2]
      exact hpres
  · by_cases hexp : now < exp
    · simp only [hl, if_pos hexp]
    · simp only [hl, if_neg hexp]
      rcases hloop : watchlist_fetch_loop apiKey fetch now days perSymbolLimit
          (processed_symbols symbols symbolFilter maxSymbols) cache [] with ⟨res, c2⟩
      have hpres : c2.lookup k = cache.lookup k := by
        have hx := watchlist_fetch_loop_lookup apiKey fetch now days perSymbolLimit k hk1
          (processed_symbols symbols symbolFilter maxSymbols) cache []
        rw [hloop] at hx
        exact hx
      cases res with
      | error e =>
        simp only [hloop]
        exact hpres
      | ok agg =>
        simp only [hloop]
        rw [lookup_news_cache_insert_ne _ _ _ _ _ hk2]
        exact hpres

/-- C3: the aggregation cache key contains the caller-supplied version
token, so keys with different versions are distinct; consequently a call
with version v2, made right after a call with version v1 populated the
cache, never hits the aggregation cache entry, at any time and in
particular inside the 300-second TTL window. -/
theorem c3_cache_version_invalidation (apiKey : String)
    (fetch : String → NewsFetchOutcome) (cache : NewsCache) (now now2 : ℚ)
    (symbols : List String) (days perSymbolLimit totalLimit : Int) (maxSymbols : Nat)
    (symbolFilter : Option String) (v1 v2 : String) (hv : v1 ≠ v2)
    (hmiss : cache.lookup (aggregation_key (processed_symbols symbols symbolFilter maxSymbols)
        days perSymbolLimit totalLimit symbolFilter (some v2)) = none) :
    aggregation_key (processed_symbols symbols symbolFilter maxSymbols)
        days perSymbolLimit totalLimit symbolFilter (some v1)
      ≠ aggregation_key (processed_symbols symbols symbolFilter maxSymbols)
        days perSymbolLimit totalLimit symbolFilter (some v2)
    ∧ (get_watchlist_news apiKey fetch
        ((get_watchlist_news apiKey fetch cache now symbols days perSymbolLimit totalLimit
            maxSymbols symbolFilter (some v1)).cache)
        now2 symbols days perSymbolLimit totalLimit maxSymbols symbolFilter
        (some v2)).fromAggCache = false := by
  have hkeys : aggregation_key (processed_symbols symbols symbolFilter maxSymbols)
      days perSymbolLimit totalLimit symbolFilter (some v1)
      ≠ aggregation_key (processed_symbols symbols symbolFilter maxSymbols)
        days perSymbolLimit totalLimit symbolFilter (some v2) := by
    intro h
    simp [aggregation_key] at h
    exact hv h
  refine ⟨hkeys, ?_⟩
  have hc1 : ((get_watchlist_news apiKey fetch cache now symbols days perSymbolLimit totalLimit
      maxSymbols symbolFilter (some v1)).cache).lookup
        (aggregation_key (processed_symbols symbols symbolFilter maxSymbols)
          days perSymbolLimit totalLimit symbolFilter (some v2)) = none := by
    rw [get_watchlist_news_lookup apiKey fetch cache now symbols days perSymbolLimit
      totalLimit maxSymbols symbolFilter (some v1) _
      (by intro s d h; simp [aggregation_key] at h) hkeys.symm.symm.symm]
    · exact hmiss
  generalize hgen : (get_watchlist_news apiKey fetch cache now symbols days perSymbolLimit
      totalLimit maxSymbols symbolFilter (some v1)).cache = c1 at hc1
  simp only [get_watchlist_news]
  rw [hc1]
  rcases hloop : watchlist_fetch_loop apiKey fetch now2 days perSymbolLimit
      (processed_symbols symbols symbolFilter maxSymbols) c1 [] with ⟨res, c2⟩
  cases res with
  | error e => simp [hloop]
  | ok agg => simp [hloop]

theorem c3_witness :
    ("2024-01-01T00:00:00Z" ≠ "2024-01-02T00:00:00Z"
     ∧ ([] : NewsCache).lookup (aggregation_key (processed_symbols ["AAPL"] none 25)
          7 5 40 none (some "2024-01-02T00:00:00Z")) = none)
    ∧ aggregation_key (processed_symbols ["AAPL"] none 25) 7 5 40 none
        (some "2024-01-01T00:00:00Z")
      ≠ aggregation_key (processed_symbols ["AAPL"] none 25) 7 5 40 none
        (some "2024-01-02T00:00:00Z")
    ∧ (get_watchlist_news "k" (fun _ => .ok [])
        ((get_watchlist_news "k" (fun _ => .ok []) [] 0 ["AAPL"] 7 5 40 25 none
            (some "2024-01-01T00:00:00Z")).cache)
        10 ["AAPL"] 7 5 40 25 none (some "2024-01-02T00:00:00Z")).fromAggCache = false :=
  ⟨⟨by decide, rfl⟩,
   (c3_cache_version_invalidation "k" (fun _ => .ok []) [] 0 10 ["AAPL"] 7 5 40 25 none
      "2024-01-01T00:00:00Z" "2024-01-02T00:00:00Z" (by decide) rfl).1,
   (c3_cache_version_invalidation "k" (fun _ => .ok []) [] 0 10 ["AAPL"] 7 5 40 25 none
      "2024-01-01T00:00:00Z" "2024-01-02T00:00:00Z" (by decide) rfl).2⟩

/-! ## C7: symbol deduplication and result caps -/

theorem foldl_dedup_step_nodup :
    ∀ (l : List String) (acc : List String), acc.Nodup →
      (List.foldl dedup_step acc l).Nodup
  | [], _, h => h
  | raw :: rest, acc, h => by
    rw [List.foldl_cons]
    apply foldl_dedup_step_nodup rest
    unfold dedup_step
    by_cases hc : norm_sym raw = "" ∨ norm_sym raw ∈ acc
    · rw [if_pos hc]
      exact h
    · rw [if_neg hc]
      push_neg at hc
      rw [List.nodup_append]
      refine ⟨h, List.nodup_singleton _, ?_⟩
      intro a ha hb
      rw [List.mem_singleton] at hb
      subst hb
      exact hc.2 ha

theorem dedup_symbols_nodup (l : List String) : (dedup_symbols l).Nodup :=
  foldl_dedup_step_nodup l [] List.nodup_nil

theorem processed_symbols_nodup (symbols : List String) (symbolFilter : Option String)
    (maxSymbols : Nat) : (processed_symbols symbols symbolFilter maxSymbols).Nodup := by
  unfold processed_symbols
  apply List.Nodup.sublist (List.take_sublist _ _)
  cases symbolFilter with
  | none => exact dedup_symbols_nodup symbols
  | some sf =>
    dsimp only
    by_cases hsf : sf = ""
    · rw [if_pos hsf]
      exact dedup_symbols_nodup symbols
    · rw [if_neg hsf]
      exact (dedup_symbols_nodup symbols).filter _

theorem watchlist_fetch_loop_countP (apiKey : String)
    (fetch : String → NewsFetchOutcome) (now : ℚ) (days perSymbolLimit : Int)
    (s : String) :
    ∀ (syms : List String) (cache : NewsCache) (acc : List Article)
      (r : List Article) (c2 : NewsCache),
      syms.Nodup →
      watchlist_fetch_loop apiKey fetch now days perSymbolLimit syms cache acc
        = (.ok r, c2) →
      r.countP (fun a => a.symbol == some s)
        ≤ acc.countP (fun a => a.symbol == some s)
          + (if s ∈ syms then (max 1 perSymbolLimit).toNat else 0)
  | [], cache, acc, r, c2, _, heq => by
    unfold watchlist_fetch_loop at heq
    simp at heq
    rw [← heq.1]
    simp
  | sym :: rest, cache, acc, r, c2, hnd, heq => by
    unfold watchlist_fetch_loop at heq
    rcases hg : get_company_news apiKey fetch cache now sym days with ⟨res, cacheAfter⟩
    rw [hg] at heq
    cases res with
    | error e => simp at heq
    | ok items =>
      simp only at heq
      have hrec := watchlist_fetch_loop_countP apiKey fetch now days perSymbolLimit s
        rest cacheAfter
        (acc ++ (items.take (max 1 perSymbolLimit).toNat).map
          (fun it => { it with symbol := some sym }))
        r c2 (List.nodup_cons.mp hnd).2 heq
      rw [List.countP_append] at hrec
      by_cases hss : s = sym
      · subst hss
        have hnotrest : s ∉ rest := (List.nodup_cons.mp hnd).1
        have hle : ((items.take (max 1 perSymbolLimit).toNat).map
            (fun it => { it with symbol := some s })).countP
              (fun a => a.symbol == some s)
            ≤ (max 1 perSymbolLimit).toNat := by
          calc ((items.take (max 1 perSymbolLimit).toNat).map
              (fun it => { it with symbol := some s })).countP
                (fun a => a.symbol == some s)
              ≤ ((items.take (max 1 perSymbolLimit).toNat).map
                  (fun it => { it with symbol := some s })).length :=
                List.countP_le_length _
            _ = (items.take (max 1 perSymbolLimit).toNat).length := List.length_map _ _
            _ ≤ (max 1 perSymbolLimit).toNat := List.length_take_le _ _
        rw [if_neg hnotrest] at hrec
        rw [if_pos (List.mem_cons_self _ _)]
        omega
      · have htag0 : ((items.take (max 1 perSymbolLimit).toNat).map
            (fun it => { it with symbol := some sym })).countP
              (fun a => a.symbol == some s) = 0 := by
          rw [List.countP_eq_zero]
          intro a ha
          rw [List.mem_map] at ha
          obtain ⟨it, _, rfl⟩ := ha
          simp
          exact fun hx => hss hx.symm
        rw [htag0] at hrec
        by_cases hr : s ∈ rest
        · rw [if_pos (List.mem_cons_of_mem _ hr)]
          rw [if_pos hr] at hrec
          omega
        · have hns : s ∉ sym :: rest := by simp [hss, hr]
          rw [if_neg hns]
          rw [if_neg hr] at hrec
          omega

theorem get_watchlist_news_fresh_result (apiKey : String)
    (fetch : String → NewsFetchOutcome) (cache : NewsCache) (now : ℚ)
    (symbols : List String) (days perSymbolLimit totalLimit : Int) (maxSymbols : Nat)
    (symbolFilter cacheVersion : Option String) (r : List Article)
    (hfresh : (get_watchlist_news apiKey fetch cache now symbols days perSymbolLimit
        totalLimit maxSymbols symbolFilter cacheVersion).fromAggCache = false)
    (hok : (get_watchlist_news apiKey fetch cache now symbols days perSymbolLimit
        totalLimit maxSymbols symbolFilter cacheVersion).result = .ok r) :
    ∃ agg c2,
      watchlist_fetch_loop apiKey fetch now days perSymbolLimit
          (processed_symbols symbols symbolFilter maxSymbols) cache [] = (.ok agg, c2)
      ∧ r = (agg.insertionSort article_desc_le).take (max 1 totalLimit).toNat := by
  rcases hl : cache.lookup (aggregation_key (processed_symbols symbols symbolFilter maxSymbols)
      days perSymbolLimit totalLimit symbolFilter cacheVersion) with _ | ⟨exp, val⟩
  · simp only [get_watchlist_news, hl] at hok
    rcases hloop : watchlist_fetch_loop apiKey fetch now days perSymbolLimit
        (processed_symbols symbols symbolFilter maxSymbols) cache [] with ⟨res, c2⟩
    rw [hloop] at hok
    cases res with
    | error e => simp at hok
    | ok agg =>
      simp at hok
      exact ⟨agg, c2, rfl, hok.symm⟩
  · by_cases hexp : now < exp
    · simp only [get_watchlist_news, hl, if_pos hexp] at hfresh
      simp at hfresh
    · simp only [get_watchlist_news, hl, if_neg hexp] at hok
      rcases hloop : watchlist_fetch_loop apiKey fetch now days perSymbolLimit
          (processed_symbols symbols symbolFilter maxSymbols) cache [] with ⟨res, c2⟩
      rw [hloop] at hok
      cases res with
      | error e => simp at hok
      | ok agg =>
        simp at hok
        exact ⟨agg, c2, rfl, hok.symm⟩

/-- C7: get_watchlist_news deduplicates symbols case-insensitively in
first-seen order, and whenever a fresh aggregation succeeds with limits
of at least one, the result holds at most totalLimit articles, at most
perSymbolLimit of them tagged with any one symbol, in non-increasing
timestamp order. -/
theorem c7_symbol_dedup_and_caps :
    dedup_symbols ["aapl", "AAPL", "msft"] = ["AAPL", "MSFT"]
    ∧ ∀ (apiKey : String) (fetch : String → NewsFetchOutcome) (cache : NewsCache)
        (now : ℚ) (symbols : List String) (days perSymbolLimit totalLimit : Int)
        (maxSymbols : Nat) (symbolFilter cacheVersion : Option String)
        (r : List Article),
        1 ≤ perSymbolLimit → 1 ≤ totalLimit →
        (get_watchlist_news apiKey fetch cache now symbols days perSymbolLimit
            totalLimit maxSymbols symbolFilter cacheVersion).fromAggCache = false →
        (get_watchlist_news apiKey fetch cache now symbols days perSymbolLimit
            totalLimit maxSymbols symbolFilter cacheVersion).result = .ok r →
        ((r.length : Int) ≤ totalLimit
         ∧ (∀ s : String,
            ((r.countP (fun a => a.symbol == some s)) : Int) ≤ perSymbolLimit)
         ∧ r.Pairwise article_desc_le) := by
  constructor
  · decide
  · intro apiKey fetch cache now symbols days perSymbolLimit totalLimit maxSymbols
      symbolFilter cacheVersion r hper htotal hfresh hok
    obtain ⟨agg, c2, hloop, hr⟩ := get_watchlist_news_fresh_result apiKey fetch cache now
      symbols days perSymbolLimit totalLimit maxSymbols symbolFilter cacheVersion r
      hfresh hok
    have htotal0 : ((max 1 totalLimit).toNat : Int) = totalLimit := by
      have h1 : (1:Int) ≤ max 1 totalLimit := le_max_left 1 totalLimit
      have h2 : max (1:Int) totalLimit = totalLimit := max_eq_right htotal
      rw [Int.toNat_of_nonneg (by omega), h2]
    have hper0 : ((max 1 perSymbolLimit).toNat : Int) = perSymbolLimit := by
      have h1 : (1:Int) ≤ max 1 perSymbolLimit := le_max_left 1 perSymbolLimit
      have h2 : max (1:Int) perSymbolLimit = perSymbolLimit := max_eq_right hper
      rw [Int.toNat_of_nonneg (by omega), h2]
    refine ⟨?_, ?_, ?_⟩
    · have h1 : r.length ≤ (max 1 totalLimit).toNat := by
        rw [hr]
        exact List.length_take_le _ _
      calc (r.length : Int) ≤ ((max 1 totalLimit).toNat : Int) := by exact_mod_cast h1
        _ = totalLimit := htotal0
    · intro s
      have hcnt := watchlist_fetch_loop_countP apiKey fetch now days perSymbolLimit s
        (processed_symbols symbols symbolFilter maxSymbols) cache [] agg c2
        (processed_symbols_nodup symbols symbolFilter maxSymbols) hloop
      have hagg : agg.countP (fun a => a.symbol == some s)
          ≤ (max 1 perSymbolLimit).toNat := by
        by_cases hs : s ∈ processed_symbols symbols symbolFilter maxSymbols
        · rw [if_pos hs] at hcnt
          simpa using hcnt
        · rw [if_neg hs] at hcnt
          have h0 : agg.countP (fun a => a.symbol == some s) ≤ 0 := by simpa using hcnt
          exact le_trans h0 (Nat.zero_le _)
      have hsorted : (agg.insertionSort article_desc_le).countP
          (fun a => a.symbol == some s) = agg.countP (fun a => a.symbol == some s) :=
        (List.perm_insertionSort article_desc_le agg).countP_eq _
      have hrle : r.countP (fun a => a.symbol == some s)
          ≤ (agg.insertionSort article_desc_le).countP (fun a => a.symbol == some s) := by
        rw [hr]
        exact List.Sublist.countP_le _ (List.take_sublist _ _)
      calc ((r.countP (fun a => a.symbol == some s)) : Int)
          ≤ ((max 1 perSymbolLimit).toNat : Int) := by
            rw [hsorted] at hrle
            exact_mod_cast le_trans hrle hagg
        _ = perSymbolLimit := hper0
    · rw [hr]
      exact List.Pairwise.sublist (List.take_sublist _ _)
        (List.sorted_insertionSort article_desc_le agg)

theorem c7_witness :
    ((1:Int) ≤ 5 ∧ (1:Int) ≤ 40
     ∧ (get_watchlist_news "k" (fun _ => .ok []) [] 0 ["AAPL"] 7 5 40 25
          none none).fromAggCache = false
     ∧ (get_watchlist_news "k" (fun _ => .ok []) [] 0 ["AAPL"] 7 5 40 25
          none none).result = .ok [])
    ∧ ((([] : List Article).length : Int) ≤ 40
       ∧ (∀ s : String,
          ((([] : List Article).countP (fun a => a.symbol == some s)) : Int) ≤ 5)
       ∧ ([] : List Article).Pairwise article_desc_le) :=
  ⟨⟨by norm_num, by norm_num, rfl, rfl⟩,
   (c7_symbol_dedup_and_caps).2 "k" (fun _ => .ok []) [] 0 ["AAPL"] 7 5 40 25 none none []
     (by norm_num) (by norm_num) rfl rfl⟩

/-- C7 as literally stated fails for perSymbolLimit = 0: the code clamps
both limits up to 1, so one article is still taken for the symbol. -/
theorem c7_counterexample :
    ¬ (∀ r, (get_watchlist_news "k"
        (fun _ => .ok [⟨"h1", "", "", "", 5, "", none⟩, ⟨"h2", "", "", "", 9, "", none⟩])
        [] 0 ["AAPL"] 7 0 40 25 none none).result = .ok r →
        ((r.countP (fun a => a.symbol == some "AAPL")) : Int) ≤ 0) := by
  intro h
  have hx := h [⟨"h2", "", "", "", 9, "", some "AAPL"⟩] rfl
  have hc : (([(⟨"h2", "", "", "", 9, "", some "AAPL"⟩ : Article)]).countP
      (fun a => a.symbol == some "AAPL")) = 1 := by decide
  rw [hc] at hx
  norm_num at hx

/-! ## C1: a per-symbol news failure aborts the aggregation -/

theorem foldl_dedup_step_ne_empty :
    ∀ (l : List String) (acc : List String), (∀ x ∈ acc, x ≠ "") →
      ∀ x ∈ List.foldl dedup_step acc l, x ≠ ""
  | [], _, hacc => hacc
  | raw :: rest, acc, hacc => by
    rw [List.foldl_cons]
    apply foldl_dedup_step_ne_empty rest
    unfold dedup_step
    by_cases hc : norm_sym raw = "" ∨ norm_sym raw ∈ acc
    · rw [if_pos hc]
      exact hacc
    · rw [if_neg hc]
      push_neg at hc
      intro x hx
      rw [List.mem_append, List.mem_singleton] at hx
      rcases hx with hx | hx
      · exact hacc x hx
      · subst hx
        exact hc.1

theorem processed_symbols_ne_empty (symbols : List String)
    (symbolFilter : Option String) (maxSymbols : Nat) :
    ∀ x ∈ processed_symbols symbols symbolFilter maxSymbols, x ≠ "" := by
  intro x hx
  have hded : ∀ y ∈ dedup_symbols symbols, y ≠ "" :=
    foldl_dedup_step_ne_empty symbols []
      (by intro y hy; exact absurd hy (List.not_mem_nil y))
  unfold processed_symbols at hx
  have hx2 := (List.take_sublist _ _).subset hx
  apply hded
  cases symbolFilter with
  | none => exact hx2
  | some sf =>
    dsimp only at hx2
    by_cases hsf : sf = ""
    · rw [if_pos hsf] at hx2
      exact hx2
    · rw [if_neg hsf] at hx2
      exact List.mem_of_mem_filter hx2

theorem get_company_news_cold_failure (apiKey : String)
    (fetch : String → NewsFetchOutcome) (now : ℚ) (s : String) (days : Int)
    (e : NewsError) (hs : ¬ s = "") (hk : ¬ apiKey = "")
    (hfail : news_fetch_error (fetch s) = some e) :
    get_company_news apiKey fetch [] now s days = (.error e, []) := by
  unfold get_company_news
  rw [if_neg hs, if_neg hk]
  cases hf : fetch s with
  | ok items =>
    rw [hf] at hfail
    simp [news_fetch_error] at hfail
  | httpStatus st =>
    rw [hf] at hfail
    simp [news_fetch_error] at hfail
    simp only [List.lookup_nil]
    by_cases h404 : st = 404
    · simp only [h404, if_pos rfl] at hfail ⊢
      rw [← hfail]
      simp
    · rw [if_neg h404] at hfail ⊢
      by_cases h429 : st = 429
      · simp only [h429, if_pos rfl] at hfail ⊢
        rw [← hfail]
        simp
      · rw [if_neg h429] at hfail ⊢
        rw [← hfail]
  | timeoutExc =>
    rw [hf] at hfail
    simp [news_fetch_error] at hfail
    simp only [List.lookup_nil]
    rw [← hfail]
  | otherExc =>
    rw [hf] at hfail
    simp [news_fetch_error] at hfail
    simp only [List.lookup_nil]
    rw [← hfail]

/-- C1 amended: a failure while fetching one symbol inside
get_watchlist_news is not caught: starting from a cold cache, if
fetching the first symbol of the processed list fails, the whole
aggregation call surfaces that error instead of returning the remaining
symbols. The per-symbol catch-log-and-degrade policy lives in the
earnings loop of get_catalysts, not here. -/
theorem c1_news_failure_propagates (apiKey : String)
    (fetch : String → NewsFetchOutcome) (now : ℚ) (symbols : List String)
    (days perSymbolLimit totalLimit : Int) (maxSymbols : Nat)
    (symbolFilter cacheVersion : Option String) (s : String) (rest : List String)
    (e : NewsError)
    (hk : ¬ apiKey = "")
    (hps : processed_symbols symbols symbolFilter maxSymbols = s :: rest)
    (hfail : news_fetch_error (fetch s) = some e) :
    (get_watchlist_news apiKey fetch [] now symbols days perSymbolLimit totalLimit
        maxSymbols symbolFilter cacheVersion).result = .error e
    ∧ (get_watchlist_news apiKey fetch [] now symbols days perSymbolLimit totalLimit
        maxSymbols symbolFilter cacheVersion).fromAggCache = false := by
  have hs : ¬ s = "" := by
    apply processed_symbols_ne_empty symbols symbolFilter maxSymbols
    rw [hps]
    exact List.mem_cons_self _ _
  have hcomp := get_company_news_cold_failure apiKey fetch now s days e hs hk hfail
  have hloop : watchlist_fetch_loop apiKey fetch now days perSymbolLimit
      (processed_symbols symbols symbolFilter maxSymbols) [] [] = (.error e, []) := by
    rw [hps]
    unfold watchlist_fetch_loop
    rw [hcomp]
  constructor
  · simp only [get_watchlist_news, List.lookup_nil, hloop]
  · simp only [get_watchlist_news, List.lookup_nil, hloop]

/-- C1 as stated fails on the code: with AAPL succeeding and MSFT rate
limited, get_watchlist_news surfaces the rate-limit error instead of the
aggregate of the remaining symbols. -/
theorem c1_counterexample :
    (get_watchlist_news "k"
        (fun s => if s = "AAPL"
          then .ok [⟨"h1", "", "", "", 5, "", none⟩]
          else .httpStatus 429)
        [] 0 ["AAPL", "MSFT"] 7 5 40 25 none none).result
      = .error .rateLimited := rfl

theorem c1_witness :
    (("k" : String) ≠ ""
     ∧ processed_symbols ["AAPL"] none 25 = ["AAPL"]
     ∧ news_fetch_error ((fun _ => NewsFetchOutcome.httpStatus 429) "AAPL")
        = some NewsError.rateLimited)
    ∧ (get_watchlist_news "k" (fun _ => NewsFetchOutcome.httpStatus 429) [] 0 ["AAPL"]
        7 5 40 25 none none).result = .error NewsError.rateLimited
    ∧ (get_watchlist_news "k" (fun _ => NewsFetchOutcome.httpStatus 429) [] 0 ["AAPL"]
        7 5 40 25 none none).fromAggCache = false :=
  ⟨⟨by decide, by decide, by decide⟩,
   (c1_news_failure_propagates "k" (fun _ => NewsFetchOutcome.httpStatus 429) 0 ["AAPL"]
      7 5 40 25 none none "AAPL" [] NewsError.rateLimited
      (by decide) (by decide) (by decide)).1,
   (c1_news_failure_propagates "k" (fun _ => NewsFetchOutcome.httpStatus 429) 0 ["AAPL"]
      7 5 40 25 none none "AAPL" [] NewsError.rateLimited
      (by decide) (by decide) (by decide)).2⟩
